import Mathlib

/-
  Verification of the build-list scaffolding subsystem
  (source: src/fprime/fbuild/interaction.py).

  Files are modelled as lists of lines; a line is a list of characters
  (each line keeps its trailing newline character, as produced by
  Python's readlines).  Python's substring test `s in t` is modelled by
  hasSubstr, list.insert by list_insert, and the IndexError that a scan
  running off the end of the list raises is modelled by Option.none.
-/

abbrev Line := List Char

/-- Python `needle.isPrefixOf hay`-style test: does hay start with needle? -/
def beginsWith : List Char → List Char → Bool
  | [], _ => true
  | _ :: _, [] => false
  | a :: as, b :: bs => a == b && beginsWith as bs

/-- Python substring containment `needle in hay`. -/
def hasSubstr (needle : List Char) : List Char → Bool
  | [] => needle.isEmpty
  | b :: bs => beginsWith needle (b :: bs) || hasSubstr needle bs

/-- The inclusion-directive marker literal of interaction.py. -/
def marker : List Char := "add_fprime_subdirectory".toList

/-- `"add_fprime_subdirectory" in line` (interaction.py lines 92 and 94). -/
def hasMarker (l : Line) : Bool := hasSubstr marker l

/-- Constant head of the directive built at interaction.py lines 104-106. -/
def additionHead : List Char := "add_fprime_subdirectory(\"$\x7bCMAKE_CURRENT_LIST_DIR\x7d/".toList

/-- Constant tail of the directive built at interaction.py lines 104-106. -/
def additionTail : List Char := "/\")\n".toList

/-- The directive line built from `comp_path` (interaction.py lines 104-106). -/
def mkAddition (comp_path : List Char) : Line :=
  additionHead ++ comp_path ++ additionTail

/-- Python `list.insert(i, a)`: `l[:i] + [a] + l[i:]` (take/drop clamp exactly
as Python slicing does). -/
def list_insert (l : List Line) (i : Nat) (a : Line) : List Line :=
  l.take i ++ a :: l.drop i

/-- Second scan loop of add_to_cmake (interaction.py lines 94-95):
`while "add_fprime_subdirectory" in lines[index]: index += 1`, returning the
offset of the first non-marker line, or none for the IndexError raised when
the loop runs off the end of the list. -/
def scanLoop2 : List Line → Option Nat
  | [] => none
  | l :: rest => if hasMarker l then (scanLoop2 rest).map (· + 1) else some 0

/-- First scan loop of add_to_cmake (interaction.py lines 92-93):
`while "add_fprime_subdirectory" not in lines[index]: index += 1`, chained
into the second loop; none models the IndexError when no line matches. -/
def scanLoop1 : List Line → Option Nat
  | [] => none
  | l :: rest =>
    if hasMarker l then scanLoop2 (l :: rest) else (scanLoop1 rest).map (· + 1)

/-- The insertion index computed by the two while loops of add_to_cmake
(interaction.py lines 91-95). -/
def scanIndex : List Line → Option Nat := scanLoop1

/-- Observable outcome of one call to add_to_cmake: whether the interactive
confirmation was reached, the returned boolean, whether the file was written,
and the resulting file content. -/
structure AddResult where
  prompted : Bool
  retval : Bool
  wrote : Bool
  lines : List Line
deriving DecidableEq, Repr

/-- add_to_cmake (interaction.py lines 86-113).  The file is `lines`; `conf`
is the answer the interactive confirmation will receive.  none models the
IndexError raised by the scan when the marker block is missing or runs to the
end of file (raised during the read phase, before any write).  The duplicate
check deliberately comes after the confirmation, as in the source. -/
def add_to_cmake (lines : List Line) (comp_path : List Char) (conf : Bool) :
    Option AddResult :=
  match scanIndex lines with
  | none => none
  | some index =>
    if conf then
      if mkAddition comp_path ∈ lines then some ⟨true, true, false, lines⟩
      else some ⟨true, true, true, list_insert lines index (mkAddition comp_path)⟩
    else some ⟨true, false, false, lines⟩

/-- A plain non-directive line for concrete instances. -/
def exLine : Line := "project(Ref)\n".toList

/-- A pre-existing inclusion-directive line for concrete instances. -/
def exMarkerLine : Line := "add_fprime_subdirectory(Old/)\n".toList

/-- A topology-inclusion line (does not match the marker) for concrete
instances. -/
def exTopo : Line := "include(topology)\n".toList

/-- A concrete component path for concrete instances. -/
def exComp : List Char := "NewComp".toList

/-- State of one (stub, destination) pair handled by the merge loop of
run_impl (interaction.py lines 72-82): the stub file's lines when it exists,
and the destination file's lines. -/
structure MergeFiles where
  stub : Option (List Line)
  dest : List Line
deriving DecidableEq, Repr

/-- One iteration of run_impl's merge loop (interaction.py lines 72-82): read
the stub's lines, drop the first 11 (the generator header), append the rest
to the destination opened for append, then delete the stub (os.remove).
none models the OSError raised when the stub file is missing. -/
def mergeStep (s : MergeFiles) : Option MergeFiles :=
  match s.stub with
  | none => none
  | some src => some ⟨none, s.dest ++ src.drop 11⟩

/-- The ordered list of disallowed characters of is_valid_name
(interaction.py lines 288-311); in source order these are
# % & left-brace right-brace / backslash < > * ? space $ ! apostrophe
double-quote : @ + backtick vertical-bar = (space is 12th, between
question mark and dollar). -/
def invalid_characters : List Char :=
  [Char.ofNat 35, Char.ofNat 37, Char.ofNat 38, Char.ofNat 123, Char.ofNat 125,
   Char.ofNat 47, Char.ofNat 92, Char.ofNat 60, Char.ofNat 62, Char.ofNat 42,
   Char.ofNat 63, Char.ofNat 32, Char.ofNat 36, Char.ofNat 33, Char.ofNat 39,
   Char.ofNat 34, Char.ofNat 58, Char.ofNat 64, Char.ofNat 43, Char.ofNat 96,
   Char.ofNat 124, Char.ofNat 61]

/-- is_valid_name (interaction.py lines 287-315): return the first character
of invalid_characters occurring in the word, modelled as some c, or the
sentinel "valid", modelled as none. -/
def is_valid_name (word : List Char) : Option Char :=
  invalid_characters.find? (fun c => word.contains c)

/-- Modelled from the spec: the scan order claim C5 asserts, the spec's
listed set with space appended last. -/
def spec_invalid_characters : List Char :=
  [Char.ofNat 35, Char.ofNat 37, Char.ofNat 38, Char.ofNat 123, Char.ofNat 125,
   Char.ofNat 47, Char.ofNat 92, Char.ofNat 60, Char.ofNat 62, Char.ofNat 42,
   Char.ofNat 63, Char.ofNat 36, Char.ofNat 33, Char.ofNat 39, Char.ofNat 34,
   Char.ofNat 58, Char.ofNat 64, Char.ofNat 43, Char.ofNat 96, Char.ofNat 124,
   Char.ofNat 61, Char.ofNat 32]

/-- Modelled from the spec: is_valid_name as claim C5 states it, scanning
space last. -/
def is_valid_name_spec (word : List Char) : Option Char :=
  spec_invalid_characters.find? (fun c => word.contains c)

/-- A single interactive answer, as a list of characters. -/
abbrev Word := List Char

/-- Values gathered by get_port_input (interaction.py lines 318-367). -/
structure PortValues where
  port_name : Word
  short_description : Word
  dir_name : Word
  arg_number : Nat
deriving DecidableEq, Repr

/-- The name-validation re-prompt loops of get_port_input (interaction.py
lines 328-334 and 338-346): consume answers until one passes is_valid_name;
none models the input stream running out. -/
def read_name_loop : List Word → Option (Word × List Word)
  | [] => none
  | w :: rest =>
    if is_valid_name w = none then some (w, rest) else read_name_loop rest

/-- Python str.isnumeric restricted to ASCII digits: non-empty and all
digits. -/
def isnumeric (s : Word) : Bool := !s.isEmpty && s.all Char.isDigit

/-- Python int() on a string of digits. -/
def pyInt (s : Word) : Nat := s.foldl (fun acc c => 10 * acc + (c.toNat - 48)) 0

/-- The final fill-in of blank string answers with defaults (interaction.py
lines 363-366); the integer arg_number never compares equal to the empty
string, so it is kept. -/
def fill_defaults (v : PortValues) : PortValues :=
  ⟨if v.port_name = [] then "ExamplePort".toList else v.port_name,
   if v.short_description = [] then "Example usage of port".toList else v.short_description,
   if v.dir_name = [] then "example_directory".toList else v.dir_name,
   v.arg_number⟩

/-- get_port_input (interaction.py lines 318-367) run against a finite
stream of interactive answers.  The outer none models running out of input;
Except.error models the UnboundLocalError raised when a non-empty
non-numeric argument count is entered: that branch only prints an error,
never assigns arg_number, and the construction of the values dictionary then
raises. -/
def get_port_input (stream : List Word) : Option (Except Unit PortValues) :=
  match read_name_loop stream with
  | none => none
  | some (port_name, s1) =>
    match s1 with
    | [] => none
    | short_description :: s2 =>
      match read_name_loop s2 with
      | none => none
      | some (dir_name, s3) =>
        match s3 with
        | [] => none
        | sarg :: _ =>
          if sarg = [] then
            some (Except.ok (fill_defaults ⟨port_name, short_description, dir_name, 1⟩))
          else if isnumeric sarg = false then
            some (Except.error ())
          else
            some (Except.ok (fill_defaults
              ⟨port_name, short_description, dir_name, pyInt sarg⟩))

/-- A directory path as its list of components; [] is the filesystem root.
pathlib's parent drops the last component, and the parent of the root is the
root itself. -/
abbrev DirPath := List String

/-- pathlib Path.parent. -/
def dirParent (p : DirPath) : DirPath := p.dropLast

/-- The build-list filename literal. -/
def cmakeFileName : String := "CMakeLists.txt"

/-- One while loop of find_nearest_cmake_lists (interaction.py lines
200-204): walk upward from `p`, stopping when `p = stop` (checked before the
file test, as in the source); return the found CMakeLists.txt path, or none
when the stop directory is reached.  `files` is the set of existing files;
the outer none means the fuel ran out (the source loop would keep walking,
looping forever at the filesystem root). -/
def walkUp (files : List DirPath) (stop : DirPath) :
    Nat → DirPath → Option (Option DirPath)
  | 0, _ => none
  | fuel + 1, p =>
    if p = stop then some none
    else if (p ++ [cmakeFileName]) ∈ files then some (some (p ++ [cmakeFileName]))
    else walkUp files stop fuel (dirParent p)

/-- find_nearest_cmake_lists (interaction.py lines 176-205).  The source
builds the pass list [(component_dir.parent, proj_root), (deployment,
proj_root.parent)] before iterating, so a None project root raises
AttributeError right there (Except.error) despite the dead
`proj_root is not None` guard in the loop condition; the bound variable
end_path of each pass is never used: both passes stop at proj_root.parent.
The outer none means the fuel ran out. -/
def find_nearest_cmake_lists (files : List DirPath)
    (component_dir deployment : DirPath) (proj_root : Option DirPath)
    (fuel : Nat) : Option (Except Unit (Option DirPath)) :=
  match proj_root with
  | none => some (Except.error ())
  | some root =>
    match walkUp files (dirParent root) fuel (dirParent component_dir) with
    | none => none
    | some (some f) => some (Except.ok (some f))
    | some none =>
      match walkUp files (dirParent root) fuel deployment with
      | none => none
      | some (some f) => some (Except.ok (some f))
      | some none => some (Except.ok none)

/-- A filename as its list of characters. -/
abbrev Name := List Char

/-- The Common marker token used to disambiguate .cpp destinations
(interaction.py line 52). -/
def commonTok : Name := "Common".toList

/-- `"Common" in name` (interaction.py line 52). -/
def hasCommon (n : Name) : Bool := hasSubstr commonTok n

/-- Length comparison used as the sort key (interaction.py line 43,
cpp_files.sort(key=len); Python's sort is stable, as is insertion sort). -/
def lenLe (a b : Name) : Prop := a.length ≤ b.length

instance : DecidableRel lenLe := fun a b => Nat.decLe a.length b.length

instance : IsTotal Name lenLe := ⟨fun a b => Nat.le_total a.length b.length⟩

instance : IsTrans Name lenLe := ⟨fun _ _ _ => Nat.le_trans⟩

/-- Destination selection of run_impl (interaction.py lines 41-54): sort the
.cpp candidates by name length, return none if either candidate list is
empty, otherwise pick the first .hpp and, among the sorted .cpp names, the
first one containing Common, else the first (shortest) one. -/
def run_impl_dests (hpp_files cpp_files : List Name) : Option (Name × Name) :=
  if hpp_files = [] ∨ List.insertionSort lenLe cpp_files = [] then none
  else
    some (hpp_files.headI,
      match (List.insertionSort lenLe cpp_files).filter (fun n => hasCommon n) with
      | c :: _ => c
      | [] => (List.insertionSort lenLe cpp_files).headI)

/-- The built directive always contains the inclusion marker: the marker is a
prefix of its constant head. -/
theorem hasMarker_mkAddition (comp_path : List Char) :
    hasMarker (mkAddition comp_path) = true := by
  have hpre : ∀ (n l r : List Char), beginsWith n l = true →
      beginsWith n (l ++ r) = true := by
    intro n
    induction n with
    | nil => intro l r _; rfl
    | cons a as ih =>
      intro l r h
      cases l with
      | nil => cases h
      | cons b bs =>
        simp only [beginsWith, Bool.and_eq_true, beq_iff_eq] at h
        simp only [List.cons_append, beginsWith, Bool.and_eq_true, beq_iff_eq]
        exact ⟨h.1, ih bs r h.2⟩
  have hbegin : beginsWith marker (mkAddition comp_path) = true := by
    have h0 : beginsWith marker additionHead = true := by decide
    have h1 := hpre marker additionHead (comp_path ++ additionTail) h0
    simpa [mkAddition, List.append_assoc] using h1
  unfold hasMarker
  cases hA : mkAddition comp_path with
  | nil =>
    rw [hA] at hbegin
    cases hbegin
  | cons x xs =>
    rw [hA] at hbegin
    simp [hasSubstr, hbegin]

/-- The second scan loop walks over a block of marker lines and stops at the
first non-marker line. -/
theorem scanLoop2_block (b : List Line) (x : Line) (r : List Line)
    (hb : ∀ l ∈ b, hasMarker l = true) (hx : hasMarker x = false) :
    scanLoop2 (b ++ x :: r) = some b.length := by
  induction b with
  | nil => simp [scanLoop2, hx]
  | cons m b' ih =>
    have hm : hasMarker m = true := hb m (by simp)
    have ih' := ih (fun l hl => hb l (by simp [hl]))
    simp [scanLoop2, hm, ih']

/-- The two scan loops, on a file of shape
(no-marker prefix) ++ (non-empty marker block) ++ (non-marker line :: rest),
compute exactly the index just past the marker block. -/
theorem scanIndex_block (p b : List Line) (x : Line) (r : List Line)
    (hp : ∀ l ∈ p, hasMarker l = false) (hb : b ≠ [])
    (hbm : ∀ l ∈ b, hasMarker l = true) (hx : hasMarker x = false) :
    scanIndex (p ++ b ++ x :: r) = some (p.length + b.length) := by
  induction p with
  | nil =>
    cases b with
    | nil => exact absurd rfl hb
    | cons m b' =>
      have hm : hasMarker m = true := hbm m (by simp)
      have h2 := scanLoop2_block (m :: b') x r hbm hx
      simp only [scanIndex, List.nil_append, List.cons_append, scanLoop1, hm, if_true]
      simpa using h2
  | cons l p' ih =>
    have hl : hasMarker l = false := hp l (by simp)
    have ih' := ih (fun m hm => hp m (by simp [hm]))
    simp only [scanIndex] at ih' ⊢
    simp only [List.cons_append]
    simp only [scanLoop1, hl, Bool.false_eq_true, if_false]
    rw [ih']
    simp only [Option.map_some', List.length_cons]
    congr 1
    omega

/-- Inserting at the index just past `p ++ b` splits the file there. -/
theorem list_insert_at_block (p b r : List Line) (a : Line) :
    list_insert (p ++ b ++ r) (p.length + b.length) a = p ++ b ++ a :: r := by
  unfold list_insert
  rw [show p ++ b ++ r = (p ++ b) ++ r by simp,
      show p.length + b.length = (p ++ b).length by simp]
  rw [List.take_left, List.drop_left]

/-- When the scan succeeds and the directive is already a line of the file,
add_to_cmake (confirmation accepted) reports success without writing. -/
theorem add_to_cmake_duplicate (lines : List Line) (cp : List Char) (i : Nat)
    (hscan : scanIndex lines = some i) (hdup : mkAddition cp ∈ lines) :
    add_to_cmake lines cp true = some ⟨true, true, false, lines⟩ := by
  unfold add_to_cmake
  rw [hscan]
  simp [hdup]

/-- When the scan succeeds and the directive is absent, add_to_cmake
(confirmation accepted) inserts it at the scanned index and writes. -/
theorem add_to_cmake_insert (lines : List Line) (cp : List Char) (i : Nat)
    (hscan : scanIndex lines = some i) (hdup : mkAddition cp ∉ lines) :
    add_to_cmake lines cp true =
      some ⟨true, true, true, list_insert lines i (mkAddition cp)⟩ := by
  unfold add_to_cmake
  rw [hscan]
  simp [hdup]

/-- If no line of the file contains the marker, the first scan loop runs off
the end of the list. -/
theorem scanLoop1_none (ls : List Line) (h : ∀ l ∈ ls, hasMarker l = false) :
    scanLoop1 ls = none := by
  induction ls with
  | nil => rfl
  | cons l rest ih =>
    have hl : hasMarker l = false := h l (by simp)
    have ih' := ih (fun m hm => h m (by simp [hm]))
    simp [scanLoop1, hl, ih']

/-- Claim C1: on a file made of a non-marker prefix `p`, a non-empty
contiguous block `b` of inclusion-directive marker lines, and a remainder
`mid ++ [topo]` whose first line does not match the marker and whose last
line is the topology inclusion, add_to_cmake (confirmation accepted, new
directive) places the directive immediately after the block: it follows all
pre-existing contiguous directives, precedes the topology line, and the
topology line remains last. -/
theorem add_to_cmake_inserts_after_block
    (p b mid : List Line) (topo x : Line) (r' : List Line) (cp : List Char)
    (hp : ∀ l ∈ p, hasMarker l = false)
    (hb : b ≠ []) (hbm : ∀ l ∈ b, hasMarker l = true)
    (hsplit : mid ++ [topo] = x :: r') (hx : hasMarker x = false)
    (htopo : hasMarker topo = false)
    (hdup : mkAddition cp ∉ p ++ b ++ (mid ++ [topo])) :
    add_to_cmake (p ++ b ++ (mid ++ [topo])) cp true =
      some ⟨true, true, true, p ++ b ++ (mkAddition cp :: (mid ++ [topo]))⟩ ∧
    (p ++ b ++ (mkAddition cp :: (mid ++ [topo]))).getLast? = some topo := by
  constructor
  · have hscan : scanIndex (p ++ b ++ (mid ++ [topo])) = some (p.length + b.length) := by
      rw [hsplit]
      exact scanIndex_block p b x r' hp hb hbm hx
    rw [add_to_cmake_insert _ cp _ hscan hdup,
        list_insert_at_block p b (mid ++ [topo]) (mkAddition cp)]
  · rw [show p ++ b ++ (mkAddition cp :: (mid ++ [topo])) =
        (p ++ (b ++ (mkAddition cp :: mid))) ++ [topo] by simp]
    rw [List.getLast?_concat]

/-- Claim C2: on a file with the marker-block shape, applying the component
mutation twice with the same directive (confirmations accepted) yields a file
identical to applying it once; and when the exact directive text is already a
line of the file the call returns true without writing. -/
theorem add_to_cmake_idempotent
    (p b : List Line) (x : Line) (r' : List Line) (cp : List Char)
    (hp : ∀ l ∈ p, hasMarker l = false)
    (hb : b ≠ []) (hbm : ∀ l ∈ b, hasMarker l = true)
    (hx : hasMarker x = false) :
    (∃ res : AddResult, add_to_cmake (p ++ b ++ x :: r') cp true = some res ∧
        res.retval = true ∧
        add_to_cmake res.lines cp true = some ⟨true, true, false, res.lines⟩) ∧
    (mkAddition cp ∈ p ++ b ++ x :: r' →
        add_to_cmake (p ++ b ++ x :: r') cp true =
          some ⟨true, true, false, p ++ b ++ x :: r'⟩) := by
  have hscan : scanIndex (p ++ b ++ x :: r') = some (p.length + b.length) :=
    scanIndex_block p b x r' hp hb hbm hx
  constructor
  · by_cases hdup : mkAddition cp ∈ p ++ b ++ x :: r'
    · exact ⟨⟨true, true, false, p ++ b ++ x :: r'⟩,
        add_to_cmake_duplicate _ cp _ hscan hdup, rfl,
        add_to_cmake_duplicate _ cp _ hscan hdup⟩
    · refine ⟨⟨true, true, true, p ++ b ++ mkAddition cp :: x :: r'⟩, ?_, rfl, ?_⟩
      · rw [add_to_cmake_insert _ cp _ hscan hdup]
        rw [show (x :: r' : List Line) = x :: r' from rfl] at *
        have := list_insert_at_block p b (x :: r') (mkAddition cp)
        rw [this]
      · have heq : p ++ b ++ mkAddition cp :: x :: r' =
            p ++ (b ++ [mkAddition cp]) ++ x :: r' := by simp
        have hbm' : ∀ l ∈ b ++ [mkAddition cp], hasMarker l = true := by
          intro l hl
          rcases List.mem_append.mp hl with h | h
          · exact hbm l h
          · rcases List.mem_singleton.mp h with rfl
            exact hasMarker_mkAddition cp
        have hscan2 : scanIndex (p ++ b ++ mkAddition cp :: x :: r') =
            some (p.length + (b ++ [mkAddition cp]).length) := by
          rw [heq]
          exact scanIndex_block p (b ++ [mkAddition cp]) x r' hp (by simp) hbm' hx
        have hdup2 : mkAddition cp ∈ p ++ b ++ mkAddition cp :: x :: r' := by simp
        exact add_to_cmake_duplicate _ cp _ hscan2 hdup2
  · intro hdup
    exact add_to_cmake_duplicate _ cp _ hscan hdup

/-- Claim C6: if the inclusion-directive marker never appears on any line,
add_to_cmake raises (the scan runs off the end of the list, modelled by
none) instead of completing; the error occurs in the read phase, before any
write, so the file is unchanged. -/
theorem add_to_cmake_no_marker_raises
    (lines : List Line) (cp : List Char) (conf : Bool)
    (h : ∀ l ∈ lines, hasMarker l = false) :
    add_to_cmake lines cp conf = none := by
  unfold add_to_cmake
  rw [show scanIndex lines = none from scanLoop1_none lines h]

/-- Claim C9: the duplicate check runs only after the interactive
confirmation, so even with the exact directive already a line of the file the
confirmation is still reached (prompted = true), and a declined confirmation
returns false (not performed) rather than the idempotent success. -/
theorem add_to_cmake_decline_overrides_duplicate
    (p b : List Line) (x : Line) (r' : List Line) (cp : List Char)
    (hp : ∀ l ∈ p, hasMarker l = false)
    (hb : b ≠ []) (hbm : ∀ l ∈ b, hasMarker l = true)
    (hx : hasMarker x = false)
    (hdup : mkAddition cp ∈ p ++ b ++ x :: r') :
    add_to_cmake (p ++ b ++ x :: r') cp false =
      some ⟨true, false, false, p ++ b ++ x :: r'⟩ := by
  have hscan : scanIndex (p ++ b ++ x :: r') = some (p.length + b.length) :=
    scanIndex_block p b x r' hp hb hbm hx
  unfold add_to_cmake
  rw [hscan]
  simp

/-- Concrete instance of claim C1's theorem. -/
theorem add_to_cmake_inserts_after_block_witness :
    add_to_cmake ([exLine] ++ [exMarkerLine] ++ ([] ++ [exTopo])) exComp true =
      some ⟨true, true, true,
        [exLine] ++ [exMarkerLine] ++ (mkAddition exComp :: ([] ++ [exTopo]))⟩ ∧
    ([exLine] ++ [exMarkerLine] ++
        (mkAddition exComp :: ([] ++ [exTopo]))).getLast? = some exTopo :=
  add_to_cmake_inserts_after_block [exLine] [exMarkerLine] [] exTopo exTopo [] exComp
    (by decide) (by decide) (by decide) (by decide) (by decide) (by decide) (by decide)

/-- Concrete instance of claim C2's theorem. -/
theorem add_to_cmake_idempotent_witness :
    (∃ res : AddResult,
        add_to_cmake ([exLine] ++ [exMarkerLine] ++ exTopo :: []) exComp true = some res ∧
        res.retval = true ∧
        add_to_cmake res.lines exComp true = some ⟨true, true, false, res.lines⟩) ∧
    (mkAddition exComp ∈ [exLine] ++ [exMarkerLine] ++ exTopo :: [] →
        add_to_cmake ([exLine] ++ [exMarkerLine] ++ exTopo :: []) exComp true =
          some ⟨true, true, false, [exLine] ++ [exMarkerLine] ++ exTopo :: []⟩) :=
  add_to_cmake_idempotent [exLine] [exMarkerLine] exTopo [] exComp
    (by decide) (by decide) (by decide) (by decide)

/-- Concrete instance of claim C6's theorem. -/
theorem add_to_cmake_no_marker_raises_witness :
    add_to_cmake [exLine, exTopo] exComp true = none :=
  add_to_cmake_no_marker_raises [exLine, exTopo] exComp true (by decide)

/-- Concrete instance of claim C9's theorem. -/
theorem add_to_cmake_decline_overrides_duplicate_witness :
    add_to_cmake ([exLine] ++ [exMarkerLine, mkAddition exComp] ++ exTopo :: [])
        exComp false =
      some ⟨true, false, false,
        [exLine] ++ [exMarkerLine, mkAddition exComp] ++ exTopo :: []⟩ :=
  add_to_cmake_decline_overrides_duplicate [exLine] [exMarkerLine, mkAddition exComp]
    exTopo [] exComp (by decide) (by decide) (by decide) (by decide) (by decide)

/-- Claim C4: for every stub of more than 11 lines and every destination, the
merge discards the stub's first 11 lines and appends the remainder to the
destination; with an initially empty destination the post-merge destination
is exactly lines 12..N of the stub, and the stub no longer exists. -/
theorem run_impl_merge_correct (stub dest : List Line) (h : 11 < stub.length) :
    mergeStep ⟨some stub, dest⟩ = some ⟨none, dest ++ stub.drop 11⟩ ∧
    mergeStep ⟨some stub, []⟩ = some ⟨none, stub.drop 11⟩ ∧
    (stub.drop 11).length = stub.length - 11 ∧
    (∀ i : Nat, (stub.drop 11).get? i = stub.get? (11 + i)) := by
  refine ⟨rfl, by simp [mergeStep], by simp, fun i => ?_⟩
  simp [List.get?_drop]

/-- Concrete instance of claim C4's theorem: a 13-line stub merged into an
empty destination. -/
theorem run_impl_merge_correct_witness :
    mergeStep ⟨some ((List.range 13).map (fun n => [Char.ofNat (65 + n)])), []⟩ =
      some ⟨none, ((List.range 13).map (fun n => [Char.ofNat (65 + n)])).drop 11⟩ :=
  (run_impl_merge_correct ((List.range 13).map (fun n => [Char.ofNat (65 + n)])) []
    (by decide)).2.1

/-- Counterexample to claim C5 as stated: on the word " $" (space then
dollar) the code returns the space, because space is scanned 12th, right
after the question mark; scanning with space last, as the claim says, would
return the dollar sign. -/
theorem is_valid_name_scan_order_counterexample :
    is_valid_name (" $".toList) = some (Char.ofNat 32) ∧
    is_valid_name_spec (" $".toList) = some (Char.ofNat 36) ∧
    some (Char.ofNat 32) ≠ some (Char.ofNat 36) := by
  refine ⟨by decide, by decide, by decide⟩

/-- find? returns some c exactly when the list splits as l1 ++ c :: l2 with
every element of l1 failing the predicate and c satisfying it. -/
theorem find?_eq_some_split {α : Type} (p : α → Bool) (l : List α) (c : α) :
    l.find? p = some c ↔
      ∃ l1 l2, l = l1 ++ c :: l2 ∧ (∀ x ∈ l1, p x = false) ∧ p c = true := by
  constructor
  · intro h
    induction l with
    | nil => cases h
    | cons a t ih =>
      by_cases ha : p a = true
      · rw [List.find?_cons_of_pos _ ha] at h
        rcases Option.some_inj.mp h with rfl
        exact ⟨[], t, rfl, by simp, ha⟩
      · have ha' : p a = false := by
          cases hpa : p a
          · rfl
          · exact absurd hpa ha
        rw [List.find?_cons_of_neg _ (by simp [ha'])] at h
        rcases ih h with ⟨l1, l2, rfl, h1, h2⟩
        exact ⟨a :: l1, l2, rfl, by
          intro x hx
          rcases List.mem_cons.mp hx with rfl | hx
          · exact ha'
          · exact h1 x hx, h2⟩
  · rintro ⟨l1, l2, rfl, h1, h2⟩
    induction l1 with
    | nil => simpa [List.find?_cons_of_pos] using List.find?_cons_of_pos (a := c) _ h2
    | cons a t ih =>
      have ha : p a = false := h1 a (by simp)
      rw [List.cons_append, List.find?_cons_of_neg _ (by simp [ha])]
      exact ih (fun x hx => h1 x (by simp [hx]))

/-- Claim C5 (amended): is_valid_name returns the sentinel ("valid", modelled
none) exactly when the word contains no disallowed character, and otherwise
the first disallowed character in the code's scan order, in which space is
scanned 12th (after the question mark and before the dollar sign), not last;
the three documented examples hold. -/
theorem is_valid_name_first_invalid :
    (∀ word : List Char,
      is_valid_name word = none ↔ ∀ c ∈ invalid_characters, word.contains c = false) ∧
    (∀ (word : List Char) (c : Char),
      is_valid_name word = some c ↔
        ∃ l1 l2, invalid_characters = l1 ++ c :: l2 ∧
          (∀ x ∈ l1, word.contains x = false) ∧ word.contains c = true) ∧
    is_valid_name ("good_name".toList) = none ∧
    is_valid_name ("bad name".toList) = some (Char.ofNat 32) ∧
    is_valid_name ("a/b".toList) = some (Char.ofNat 47) := by
  refine ⟨fun word => ?_, fun word c => ?_, by decide, by decide, by decide⟩
  · unfold is_valid_name
    rw [List.find?_eq_none]
    constructor
    · intro h c hc
      have := h c hc
      simpa using this
    · intro h c hc
      simpa using h c hc
  · exact find?_eq_some_split (fun c => word.contains c) invalid_characters c

/-- Concrete instance of claim C5's amended theorem: on "a/b" the slash is
returned, and the characterisation exhibits the split of the scan list at
the slash. -/
theorem is_valid_name_first_invalid_witness :
    ∃ l1 l2, invalid_characters = l1 ++ (Char.ofNat 47) :: l2 ∧
      (∀ x ∈ l1, ("a/b".toList).contains x = false) ∧
      ("a/b".toList).contains (Char.ofNat 47) = true :=
  (is_valid_name_first_invalid.2.1 ("a/b".toList) (Char.ofNat 47)).mp (by decide)

/-- Claim C8: with a valid port name, a description, a valid directory name,
and then the non-empty non-numeric answer "abc" for the number of arguments,
get_port_input raises (UnboundLocalError, modelled Except.error) while
building the result dictionary: it neither re-prompts nor falls back to the
default argument count. -/
theorem get_port_input_nonnumeric_raises :
    get_port_input ["MyPort".toList, "desc".toList, "mydir".toList, "abc".toList] =
      some (Except.error ()) := rfl

/-- Claim C3, counter-evidence: with nested directories A = /proj (the
project root), B = /proj/dep (the deployment), C = /proj/dep/comp (the
component directory) and CMakeLists.txt existing only at A, pass 1 alone --
walking from C's parent with the bound proj_root.parent used by the source
for both passes -- already finds and returns A's file, because the unused
end_path variable means pass 1 does not exclude the project root. -/
theorem find_nearest_pass1_includes_root :
    walkUp [["proj", cmakeFileName]] (dirParent ["proj"]) 5
        (dirParent ["proj", "dep", "comp"]) =
      some (some ["proj", cmakeFileName]) ∧
    find_nearest_cmake_lists [["proj", cmakeFileName]] ["proj", "dep", "comp"]
        ["proj", "dep"] (some ["proj"]) 5 =
      some (Except.ok (some ["proj", cmakeFileName])) := ⟨rfl, rfl⟩

/-- Claim C7, counter-evidence: a None project root makes
find_nearest_cmake_lists raise (AttributeError while evaluating
proj_root.parent in the pass list, modelled Except.error) instead of
returning none, for every filesystem, component directory, deployment and
fuel. -/
theorem find_nearest_none_root_raises (files : List DirPath)
    (component_dir deployment : DirPath) (fuel : Nat) :
    find_nearest_cmake_lists files component_dir deployment none fuel =
      some (Except.error ()) := rfl

/-- Claim C10: whenever at least one .cpp candidate contains Common (so in
particular when more than one does), run_impl deterministically selects as
the .cpp destination a Common-containing candidate of minimal name length,
because the candidates are sorted by length before the Common filter and the
first element of the filtered list is taken. -/
theorem run_impl_cpp_dest_shortest_common
    (hpp_files cpp_files : List Name) (c : Name)
    (hh : hpp_files ≠ []) (hc : c ∈ cpp_files) (hcom : hasCommon c = true) :
    ∃ h d, run_impl_dests hpp_files cpp_files = some (h, d) ∧
      hasCommon d = true ∧
      ∀ n ∈ cpp_files, hasCommon n = true → d.length ≤ n.length := by
  have hperm : List.Perm (List.insertionSort lenLe cpp_files) cpp_files :=
    List.perm_insertionSort lenLe cpp_files
  have hcs : c ∈ List.insertionSort lenLe cpp_files := hperm.mem_iff.mpr hc
  have hcf : c ∈ (List.insertionSort lenLe cpp_files).filter (fun n => hasCommon n) :=
    List.mem_filter.mpr ⟨hcs, hcom⟩
  obtain ⟨d, rest, hfil⟩ : ∃ d rest,
      (List.insertionSort lenLe cpp_files).filter (fun n => hasCommon n) = d :: rest := by
    cases hfe : (List.insertionSort lenLe cpp_files).filter (fun n => hasCommon n) with
    | nil =>
      rw [hfe] at hcf
      cases hcf
    | cons d rest => exact ⟨d, rest, rfl⟩
  have hsne : List.insertionSort lenLe cpp_files ≠ [] := by
    intro h0
    rw [h0] at hcs
    cases hcs
  have hguard : ¬ (hpp_files = [] ∨ List.insertionSort lenLe cpp_files = []) := by
    rintro (h | h)
    · exact hh h
    · exact hsne h
  have hdf : d ∈ (List.insertionSort lenLe cpp_files).filter (fun n => hasCommon n) := by
    rw [hfil]
    exact List.mem_cons_self d rest
  refine ⟨hpp_files.headI, d, ?_, (List.mem_filter.mp hdf).2, ?_⟩
  · unfold run_impl_dests
    rw [if_neg hguard, hfil]
  · intro n hn hcn
    have hns : n ∈ List.insertionSort lenLe cpp_files := hperm.mem_iff.mpr hn
    have hnf : n ∈ (List.insertionSort lenLe cpp_files).filter (fun m => hasCommon m) :=
      List.mem_filter.mpr ⟨hns, hcn⟩
    rw [hfil] at hnf
    have hsort : List.Sorted lenLe (List.insertionSort lenLe cpp_files) :=
      List.sorted_insertionSort lenLe cpp_files
    have hsortf : List.Sorted lenLe (d :: rest) := by
      rw [← hfil]
      exact hsort.sublist (List.filter_sublist _)
    rcases List.mem_cons.mp hnf with rfl | hmem
    · exact le_rfl
    · exact List.rel_of_sorted_cons hsortf n hmem

/-- Concrete instance of claim C10's theorem: among two Common-containing
candidates the shorter one is selected. -/
theorem run_impl_cpp_dest_shortest_common_witness :
    ∃ h d, run_impl_dests ["X.hpp".toList]
        ["SomeLongCommonImpl.cpp".toList, "ACommon.cpp".toList, "Plain.cpp".toList] =
        some (h, d) ∧
      hasCommon d = true ∧
      ∀ n ∈ ["SomeLongCommonImpl.cpp".toList, "ACommon.cpp".toList, "Plain.cpp".toList],
        hasCommon n = true → d.length ≤ n.length :=
  run_impl_cpp_dest_shortest_common ["X.hpp".toList]
    ["SomeLongCommonImpl.cpp".toList, "ACommon.cpp".toList, "Plain.cpp".toList]
    ("ACommon.cpp".toList) (by decide) (by decide) (by decide)
